import Mathlib

/-!
Verification of the `moho` calendar-entry library (`src/index.ts`).

The library works with whole calendar dates at midnight granularity: every
JavaScript `Date` value that the code constructs or receives is a proleptic
Gregorian civil date `(year, month, day)` with `month ∈ [1,12]` and
`day ∈ [1, daysInMonth]`.  We embed such a value as a `CivilDate` triple.
The JavaScript `Date(year, month0, day)` constructor silently normalizes an
out-of-range day (and 0-indexed month) into adjacent months; `mkDate` models
that normalization.  Timestamp comparison of two midnight dates coincides
with lexicographic comparison of the triples, which is how `CivilDate.le`
and `CivilDate.lt` are defined.  `getDay` (day of the week, 0 = Sunday) is
computed with Sakamoto's congruence, which agrees with the Gregorian
calendar for all years.

JavaScript strings are embedded as `List Char`; `parseInt(s, 10)` is
modelled by `parseIntJS` (skip leading whitespace, optional sign, longest
digit prefix, `NaN`/`none` when no digit is found), `String.prototype.trim`
by `trimJS`, `split` by `splitOnChar`, `includes`/`endsWith` by
`containsSeq`/`endsWithSeq`.

All definitions below follow `src/index.ts` line by line; the query layer
models `Array.prototype.sort` (stable, ascending by the numeric comparator
`a.date.getTime() - b.date.getTime()`) with `List.mergeSort` keyed on the
date order.
-/

namespace Moho

/-- A calendar date at midnight granularity, as held by a JavaScript `Date`. -/
structure CivilDate where
  year : Int
  month : Int
  day : Int
deriving DecidableEq, Repr

/-- Gregorian leap-year test, as used by the JavaScript `Date` runtime. -/
def isLeap (y : Int) : Bool :=
  y % 4 == 0 && (y % 100 != 0 || y % 400 == 0)

/-- Number of days in month `m` (1..12) of year `y`. -/
def daysInMonth (y m : Int) : Int :=
  if m = 2 then (if isLeap y then 29 else 28)
  else if m = 4 ∨ m = 6 ∨ m = 9 ∨ m = 11 then 30
  else 31

theorem daysInMonth_bounds (y m : Int) : 28 ≤ daysInMonth y m ∧ daysInMonth y m ≤ 31 := by
  unfold daysInMonth
  split
  · split <;> omega
  · split <;> omega

/-- Day-of-month normalization performed by the JavaScript `Date`
constructor: a day outside `[1, daysInMonth]` is rolled into the adjacent
months.  Structural recursion on a fuel argument keeps the function kernel
computable; each step moves the day at least 28 closer to range, so the
fuel chosen in `rollDay` is always sufficient. -/
def rollDayAux : Nat → Int → Int → Int → CivilDate
  | 0, y, m, d => ⟨y, m, d⟩
  | fuel + 1, y, m, d =>
    if d < 1 then
      rollDayAux fuel (if m = 1 then y - 1 else y) (if m = 1 then 12 else m - 1)
        (d + daysInMonth (if m = 1 then y - 1 else y) (if m = 1 then 12 else m - 1))
    else if daysInMonth y m < d then
      rollDayAux fuel (if m = 12 then y + 1 else y) (if m = 12 then 1 else m + 1)
        (d - daysInMonth y m)
    else ⟨y, m, d⟩

/-- Day-of-month normalization of the JavaScript `Date` constructor. -/
def rollDay (y m d : Int) : CivilDate :=
  rollDayAux (d.natAbs + 48) y m d

/-- `new Date(y, m0, d)` at midnight: 0-indexed month `m0` is first folded
into the year, then the day is normalized. -/
def mkDate (y m0 d : Int) : CivilDate :=
  rollDay (y + m0 / 12) (m0 % 12 + 1) d

/-- Timestamp order on midnight dates (lexicographic on valid triples). -/
def CivilDate.le (a b : CivilDate) : Prop :=
  a.year < b.year ∨ (a.year = b.year ∧
    (a.month < b.month ∨ (a.month = b.month ∧ a.day ≤ b.day)))

/-- Strict timestamp order on midnight dates. -/
def CivilDate.lt (a b : CivilDate) : Prop :=
  a.year < b.year ∨ (a.year = b.year ∧
    (a.month < b.month ∨ (a.month = b.month ∧ a.day < b.day)))

instance : LE CivilDate := ⟨CivilDate.le⟩

instance : LT CivilDate := ⟨CivilDate.lt⟩

instance (a b : CivilDate) : Decidable (a ≤ b) :=
  decidable_of_iff (a.year < b.year ∨ (a.year = b.year ∧
    (a.month < b.month ∨ (a.month = b.month ∧ a.day ≤ b.day)))) Iff.rfl

instance (a b : CivilDate) : Decidable (a < b) :=
  decidable_of_iff (a.year < b.year ∨ (a.year = b.year ∧
    (a.month < b.month ∨ (a.month = b.month ∧ a.day < b.day)))) Iff.rfl

theorem CivilDate.le_def (a b : CivilDate) : (a ≤ b) =
    (a.year < b.year ∨ (a.year = b.year ∧
      (a.month < b.month ∨ (a.month = b.month ∧ a.day ≤ b.day)))) := rfl

theorem CivilDate.lt_def (a b : CivilDate) : (a < b) =
    (a.year < b.year ∨ (a.year = b.year ∧
      (a.month < b.month ∨ (a.month = b.month ∧ a.day < b.day)))) := rfl

/-- Sakamoto month offsets for the day-of-week congruence. -/
def sakamotoTable (m : Int) : Int :=
  if m = 1 then 0 else if m = 2 then 3 else if m = 3 then 2
  else if m = 4 then 5 else if m = 5 then 0 else if m = 6 then 3
  else if m = 7 then 5 else if m = 8 then 1 else if m = 9 then 4
  else if m = 10 then 6 else if m = 11 then 2 else 4

/-- Day of the week of a civil date (0 = Sunday .. 6 = Saturday),
Sakamoto's congruence; models `Date.prototype.getDay`. -/
def CivilDate.getDay (dt : CivilDate) : Int :=
  let y := if dt.month < 3 then dt.year - 1 else dt.year
  (y + y / 4 - y / 100 + y / 400 + sakamotoTable dt.month + dt.day) % 7

/-- A civil date is valid when its month and day are in calendar range
(always true of a date held by a JavaScript `Date` at midnight). -/
def CivilDate.Valid (dt : CivilDate) : Prop :=
  1 ≤ dt.month ∧ dt.month ≤ 12 ∧ 1 ≤ dt.day ∧ dt.day ≤ daysInMonth dt.year dt.month

instance (dt : CivilDate) : Decidable dt.Valid :=
  decidable_of_iff (1 ≤ dt.month ∧ dt.month ≤ 12 ∧ 1 ≤ dt.day ∧
    dt.day ≤ daysInMonth dt.year dt.month) Iff.rfl

/-- Entry with a specific month and day, recurring annually
(`ExactDateEntry` in `src/index.ts`). -/
structure ExactDateEntry where
  name : String
  month : Int
  day : Int
  source : Option String
deriving DecidableEq, Repr

/-- Entry with a specific year, month and day, a one-time event
(`ExactDateWithYearEntry` in `src/index.ts`). -/
structure ExactDateWithYearEntry where
  name : String
  month : Int
  day : Int
  year : Int
  source : Option String
deriving DecidableEq, Repr

/-- Entry for a relative date such as "3rd Monday in January"
(`RelativeDateEntry` in `src/index.ts`). -/
structure RelativeDateEntry where
  name : String
  occurrence : Int
  dayOfWeek : Int
  month : Int
  source : Option String
deriving DecidableEq, Repr

/-- The closed set of entry variants handled by the library. -/
inductive Entry where
  | exact : ExactDateEntry → Entry
  | exactYear : ExactDateWithYearEntry → Entry
  | relative : RelativeDateEntry → Entry
deriving DecidableEq, Repr

/-- `ExactDateEntry.getNextOccurrence` (src/index.ts lines 51-60). -/
def ExactDateEntry.getNextOccurrence (e : ExactDateEntry) (fromDate : CivilDate) : CivilDate :=
  let year := fromDate.year
  let nextDate := mkDate year (e.month - 1) e.day
  if nextDate ≤ fromDate then mkDate (year + 1) (e.month - 1) e.day
  else nextDate

/-- `ExactDateEntry.occursOn` (src/index.ts lines 62-64):
`date.getMonth() === this.month - 1 && date.getDate() === this.day`. -/
def ExactDateEntry.occursOn (e : ExactDateEntry) (date : CivilDate) : Bool :=
  date.month - 1 == e.month - 1 && date.day == e.day

/-- `ExactDateWithYearEntry.getNextOccurrence` (src/index.ts lines 97-107):
the next anniversary, computed exactly like `ExactDateEntry`. -/
def ExactDateWithYearEntry.getNextOccurrence (e : ExactDateWithYearEntry)
    (fromDate : CivilDate) : CivilDate :=
  let currentYear := fromDate.year
  let anniversaryDate := mkDate currentYear (e.month - 1) e.day
  if anniversaryDate ≤ fromDate then mkDate (currentYear + 1) (e.month - 1) e.day
  else anniversaryDate

/-- `ExactDateWithYearEntry.occursOn` (src/index.ts lines 109-115). -/
def ExactDateWithYearEntry.occursOn (e : ExactDateWithYearEntry) (date : CivilDate) : Bool :=
  date.year == e.year && date.month - 1 == e.month - 1 && date.day == e.day

/-- `ExactDateWithYearEntry.getAnniversary` (src/index.ts lines 130-132). -/
def ExactDateWithYearEntry.getAnniversary (e : ExactDateWithYearEntry) (year : Int) : CivilDate :=
  mkDate year (e.month - 1) e.day

/-- `ExactDateWithYearEntry.getYearsSince` (src/index.ts lines 139-141). -/
def ExactDateWithYearEntry.getYearsSince (e : ExactDateWithYearEntry) (date : CivilDate) : Int :=
  date.year - e.year

/-- `RelativeDateEntry.getNthWeekdayOfMonth` (src/index.ts lines 229-249). -/
def getNthWeekdayOfMonth (year month dayOfWeek occurrence : Int) : Option CivilDate :=
  let firstDay := mkDate year (month - 1) 1
  let firstDayOfWeek := firstDay.getDay
  let daysToAdd := (dayOfWeek - firstDayOfWeek + 7).tmod 7 + (occurrence - 1) * 7
  let targetDate := mkDate year (month - 1) (1 + daysToAdd)
  if targetDate.month - 1 ≠ month - 1 then none
  else some targetDate

/-- `RelativeDateEntry.getNextOccurrence` (src/index.ts lines 251-271). -/
def RelativeDateEntry.getNextOccurrence (e : RelativeDateEntry) (fromDate : CivilDate) : CivilDate :=
  let year := fromDate.year
  let first := getNthWeekdayOfMonth year e.month e.dayOfWeek e.occurrence
  let retried :=
    match first with
    | none => getNthWeekdayOfMonth (year + 1) e.month e.dayOfWeek e.occurrence
    | some dt =>
      if dt ≤ fromDate then getNthWeekdayOfMonth (year + 1) e.month e.dayOfWeek e.occurrence
      else some dt
  match retried with
  | some dt => dt
  | none => mkDate 9999 11 31

/-- `RelativeDateEntry.occursOn` (src/index.ts lines 273-283). -/
def RelativeDateEntry.occursOn (e : RelativeDateEntry) (date : CivilDate) : Bool :=
  if date.month - 1 != e.month - 1 then false
  else if date.getDay != e.dayOfWeek then false
  else
    let firstDay := mkDate date.year (e.month - 1) 1
    let firstDayOfWeek := firstDay.getDay
    let daysToAdd := (e.dayOfWeek - firstDayOfWeek + 7).tmod 7
    let expectedDay := 1 + daysToAdd + (e.occurrence - 1) * 7
    date.day == expectedDay

/-- Dispatch of `getNextOccurrence` over the entry variants. -/
def Entry.getNextOccurrence (e : Entry) (fromDate : CivilDate) : CivilDate :=
  match e with
  | .exact ex => ex.getNextOccurrence fromDate
  | .exactYear ex => ex.getNextOccurrence fromDate
  | .relative ex => ex.getNextOccurrence fromDate

/-- Dispatch of `occursOn` over the entry variants. -/
def Entry.occursOn (e : Entry) (date : CivilDate) : Bool :=
  match e with
  | .exact ex => ex.occursOn date
  | .exactYear ex => ex.occursOn date
  | .relative ex => ex.occursOn date

/-- JavaScript `String.prototype.split(sep)` on a single-character
separator: always returns at least one (possibly empty) piece. -/
def splitOnChar (sep : Char) : List Char → List (List Char)
  | [] => [[]]
  | c :: rest =>
    let r := splitOnChar sep rest
    if c == sep then [] :: r
    else
      match r with
      | [] => [[c]]
      | h :: t => (c :: h) :: t

/-- JavaScript `String.prototype.trim`. -/
def trimJS (cs : List Char) : List Char :=
  ((cs.dropWhile (fun c => c.isWhitespace)).reverse.dropWhile
    (fun c => c.isWhitespace)).reverse

/-- Numeric value of a digit string. -/
def digitsVal (ds : List Char) : Int :=
  ds.foldl (fun a c => a * 10 + ((c.toNat : Int) - 48)) 0

/-- Longest digit prefix interpreted as a number; `none` when there is no
leading digit (the `NaN` outcome of `parseInt`). -/
def digitsOf (cs : List Char) : Option Int :=
  let ds := cs.takeWhile (fun c => c.isDigit)
  if ds.isEmpty then none else some (digitsVal ds)

/-- JavaScript `parseInt(s, 10)`: skip leading whitespace, read an optional
sign and then the longest digit prefix; `NaN` (here `none`) only when no
digit follows. -/
def parseIntJS (cs : List Char) : Option Int :=
  match cs.dropWhile (fun c => c.isWhitespace) with
  | '-' :: rest => (digitsOf rest).map (fun n => -n)
  | '+' :: rest => digitsOf rest
  | rest => digitsOf rest

/-- Does `pat` occur at the head of `s`? -/
def leadsWith : List Char → List Char → Bool
  | [], _ => true
  | _ :: _, [] => false
  | p :: ps, c :: cs => p == c && leadsWith ps cs

/-- JavaScript `String.prototype.includes(pat)`: does `pat` occur
anywhere in `s`? -/
def containsSeq (pat : List Char) : List Char → Bool
  | [] => leadsWith pat []
  | c :: cs => leadsWith pat (c :: cs) || containsSeq pat cs

/-- JavaScript `String.prototype.endsWith(pat)`. -/
def endsWithSeq (pat s : List Char) : Bool :=
  leadsWith pat.reverse s.reverse

/-- `RelativeDateEntry.DAYS_OF_WEEK` (src/index.ts lines 149-157). -/
def DAYS_OF_WEEK : List String :=
  ["Sunday", "Monday", "Tuesday", "Wednesday", "Thursday", "Friday", "Saturday"]

/-- `RelativeDateEntry.MONTHS` (src/index.ts lines 158-171). -/
def MONTHS : List String :=
  ["Jan", "Feb", "Mar", "Apr", "May", "Jun", "Jul", "Aug", "Sep", "Oct", "Nov", "Dec"]

/-- `RelativeDateEntry.parseRelativeDate` (src/index.ts lines 188-219):
leading digit as `occurrence`, first weekday name occurring anywhere in the
token, first month abbreviation the token ends with; any failure throws
(modelled as `none`). -/
def parseRelativeDate (cs : List Char) : Option (Int × Int × Int) :=
  match cs with
  | [] => none
  | c :: _ =>
    if c.isDigit then
      let occurrence : Int := (c.toNat : Int) - 48
      match DAYS_OF_WEEK.findIdx? (fun nm => containsSeq nm.data cs) with
      | none => none
      | some i =>
        match MONTHS.findIdx? (fun nm => endsWithSeq nm.data cs) with
        | none => none
        | some j => some (occurrence, (i : Int), (j : Int) + 1)
    else none

/-- `parseCSVLine` (src/index.ts lines 337-377) on the character list of
the line. -/
def parseLine (cs : List Char) (src : Option String) : Option Entry :=
  let parts := splitOnChar ',' cs
  if parts.length < 2 then none
  else
    let name := trimJS (parts.getD 0 [])
    let dateStr := trimJS (parts.getD 1 [])
    if name.isEmpty || dateStr.isEmpty then none
    else if dateStr.contains '/' then
      let sides := splitOnChar '/' dateStr
      let monthStr := sides.getD 0 []
      let dayStr := sides.getD 1 []
      if monthStr.isEmpty || dayStr.isEmpty then none
      else
        match parseIntJS monthStr, parseIntJS dayStr with
        | some month, some day =>
          if 3 ≤ parts.length then
            let yearStr := trimJS (parts.getD 2 [])
            if yearStr.isEmpty then some (.exact ⟨String.mk name, month, day, src⟩)
            else
              match parseIntJS yearStr with
              | some year =>
                some (.exactYear ⟨String.mk name, month, day, year, src⟩)
              | none => some (.exact ⟨String.mk name, month, day, src⟩)
          else some (.exact ⟨String.mk name, month, day, src⟩)
        | _, _ => none
    else
      match parseRelativeDate dateStr with
      | some (occ, dow, mon) => some (.relative ⟨String.mk name, occ, dow, mon, src⟩)
      | none => none

/-- `parseCSVLine` on a Lean string. -/
def parseCSVLine (line : String) (src : Option String) : Option Entry :=
  parseLine line.data src

/-- Boolean date comparison used to model the ascending sort comparator
`(a, b) => a.date.getTime() - b.date.getTime()`. -/
def dateLeB (a b : Entry × CivilDate) : Bool :=
  decide (a.2 ≤ b.2)

/-- `endDate` computation of `getEntriesInNextDays` (src/index.ts lines
416-417): `endDate.setDate(endDate.getDate() + days)`. -/
def addDays (fromDate : CivilDate) (days : Int) : CivilDate :=
  mkDate fromDate.year (fromDate.month - 1) (fromDate.day + days)

/-- `getEntriesInNextDays` (src/index.ts lines 411-426): map each entry to
its next occurrence, keep the dates inside `[fromDate, endDate]`, sort
ascending by date (stably). -/
def getEntriesInNextDays (entries : List Entry) (days : Int)
    (fromDate : CivilDate) : List (Entry × CivilDate) :=
  let endDate := addDays fromDate days
  ((entries.map (fun e => (e, e.getNextOccurrence fromDate))).filter
    (fun p => decide (fromDate ≤ p.2) && decide (p.2 ≤ endDate))).mergeSort dateLeB

/-- `getEntriesOnDate` (src/index.ts lines 497-499). -/
def getEntriesOnDate (entries : List Entry) (date : CivilDate) : List Entry :=
  entries.filter (fun e => e.occursOn date)

/-- `getEntriesOnMonthDay` (src/index.ts lines 508-518): `instanceof`
dispatch keeps only the two fixed-date variants, compared on their raw
`month`/`day` fields. -/
def getEntriesOnMonthDay (entries : List Entry) (month day : Int) : List Entry :=
  entries.filter (fun e =>
    match e with
    | .exact ex => ex.month == month && ex.day == day
    | .exactYear ex => ex.month == month && ex.day == day
    | .relative _ => false)

/-! ### Helper lemmas about the date model -/

theorem CivilDate.lt_of_not_le {a b : CivilDate} (h : ¬ a ≤ b) : b < a := by
  rw [CivilDate.le_def] at h
  rw [CivilDate.lt_def]
  omega

theorem CivilDate.lt_of_year_lt {a b : CivilDate} (h : a.year < b.year) : a < b := by
  rw [CivilDate.lt_def]
  omega

theorem CivilDate.not_le_of_lt {a b : CivilDate} (h : a < b) : ¬ b ≤ a := by
  rw [CivilDate.lt_def] at h
  rw [CivilDate.le_def]
  omega

theorem daysInMonth_twelve (y : Int) : daysInMonth y 12 = 31 := by
  norm_num [daysInMonth]

theorem rollDayAux_base (fuel : Nat) (y m d : Int) (h1 : 1 ≤ d)
    (h2 : d ≤ daysInMonth y m) : rollDayAux fuel y m d = ⟨y, m, d⟩ := by
  cases fuel with
  | zero => rfl
  | succ n =>
    unfold rollDayAux
    rw [if_neg (by omega), if_neg (by omega)]

theorem rollDay_base (y m d : Int) (h1 : 1 ≤ d) (h2 : d ≤ daysInMonth y m) :
    rollDay y m d = ⟨y, m, d⟩ :=
  rollDayAux_base _ y m d h1 h2

/-- For a month in range and a day in `[1, 35]` (every day the library ever
feeds to the `Date` constructor), normalization overflows by at most one
month. -/
theorem rollDay_small (y m d : Int) (hm1 : 1 ≤ m) (hm2 : m ≤ 12)
    (hd1 : 1 ≤ d) (hd2 : d ≤ 35) :
    rollDay y m d =
      if daysInMonth y m < d then
        (if m = 12 then ⟨y + 1, 1, d - 31⟩
         else ⟨y, m + 1, d - daysInMonth y m⟩)
      else ⟨y, m, d⟩ := by
  have hb := daysInMonth_bounds y m
  unfold rollDay
  rcases Nat.exists_eq_add_of_le (show 1 ≤ d.natAbs + 48 by omega) with ⟨k, hk⟩
  rw [show d.natAbs + 48 = k + 1 by omega]
  unfold rollDayAux
  rw [if_neg (by omega)]
  by_cases hov : daysInMonth y m < d
  · rw [if_pos hov, if_pos hov]
    by_cases h12 : m = 12
    · subst h12
      rw [daysInMonth_twelve] at hov hb ⊢
      rw [if_pos rfl, if_pos rfl, if_pos rfl]
      exact rollDayAux_base k _ 1 _ (by omega) (by
        have := daysInMonth_bounds (y + 1) 1
        omega)
    · rw [if_neg h12, if_neg h12, if_neg h12]
      exact rollDayAux_base k y (m + 1) _ (by omega) (by
        have := daysInMonth_bounds y (m + 1)
        omega)
  · rw [if_neg hov, if_neg hov]

theorem rollDay_year_small (y m d : Int) (hm1 : 1 ≤ m) (hm2 : m ≤ 12)
    (hd1 : 1 ≤ d) (hd2 : d ≤ 31) : (rollDay y m d).year = y := by
  rw [rollDay_small y m d hm1 hm2 hd1 (by omega)]
  have hb := daysInMonth_bounds y m
  by_cases hov : daysInMonth y m < d
  · rw [if_pos hov]
    by_cases h12 : m = 12
    · subst h12
      rw [daysInMonth_twelve] at hov
      omega
    · rw [if_neg h12]
  · rw [if_neg hov]

theorem mkDate_eq_rollDay (y m d : Int) (hm1 : 1 ≤ m) (hm2 : m ≤ 12) :
    mkDate y (m - 1) d = rollDay y m d := by
  unfold mkDate
  have h1 : (m - 1) / 12 = 0 := by omega
  have h2 : (m - 1) % 12 = m - 1 := by omega
  rw [h1, h2]
  norm_num

theorem CivilDate.getDay_range (dt : CivilDate) : 0 ≤ dt.getDay ∧ dt.getDay < 7 := by
  unfold CivilDate.getDay
  refine ⟨Int.emod_nonneg _ (by norm_num), Int.emod_lt_of_pos _ (by norm_num)⟩

/-! ### Strictness of `getNextOccurrence` -/

/-- With month and day in the spec's declared ranges, the fixed-annual next
occurrence is strictly after the query date. -/
theorem exactNext_after (e : ExactDateEntry) (f : CivilDate)
    (hm1 : 1 ≤ e.month) (hm2 : e.month ≤ 12) (hd1 : 1 ≤ e.day) (hd2 : e.day ≤ 31) :
    f < e.getNextOccurrence f := by
  simp only [ExactDateEntry.getNextOccurrence]
  rw [mkDate_eq_rollDay f.year e.month e.day hm1 hm2,
    mkDate_eq_rollDay (f.year + 1) e.month e.day hm1 hm2]
  by_cases hle : rollDay f.year e.month e.day ≤ f
  · rw [if_pos hle]
    exact CivilDate.lt_of_year_lt (by
      rw [rollDay_year_small (f.year + 1) e.month e.day hm1 hm2 hd1 hd2]
      omega)
  · rw [if_neg hle]
    exact CivilDate.lt_of_not_le hle

/-- Same statement for the one-time dated entry, whose `getNextOccurrence`
is the identical anniversary computation. -/
theorem exactYearNext_after (e : ExactDateWithYearEntry) (f : CivilDate)
    (hm1 : 1 ≤ e.month) (hm2 : e.month ≤ 12) (hd1 : 1 ≤ e.day) (hd2 : e.day ≤ 31) :
    f < e.getNextOccurrence f := by
  simp only [ExactDateWithYearEntry.getNextOccurrence]
  rw [mkDate_eq_rollDay f.year e.month e.day hm1 hm2,
    mkDate_eq_rollDay (f.year + 1) e.month e.day hm1 hm2]
  by_cases hle : rollDay f.year e.month e.day ≤ f
  · rw [if_pos hle]
    exact CivilDate.lt_of_year_lt (by
      rw [rollDay_year_small (f.year + 1) e.month e.day hm1 hm2 hd1 hd2]
      omega)
  · rw [if_neg hle]
    exact CivilDate.lt_of_not_le hle

/-- A successful `getNthWeekdayOfMonth` lands in the requested year (its
month-overflow guard rejects anything else). -/
theorem getNth_year (y m dow occ : Int) (hm1 : 1 ≤ m) (hm2 : m ≤ 12)
    (hdow1 : 0 ≤ dow) (hdow2 : dow ≤ 6) (hocc1 : 1 ≤ occ) (hocc2 : occ ≤ 5)
    (r : CivilDate) (h : getNthWeekdayOfMonth y m dow occ = some r) :
    r.year = y := by
  simp only [getNthWeekdayOfMonth] at h
  have hfd := CivilDate.getDay_range (mkDate y (m - 1) 1)
  set fd := (mkDate y (m - 1) 1).getDay with hfddef
  have htm : (dow - fd + 7).tmod 7 = (dow - fd + 7) % 7 :=
    Int.tmod_eq_emod (by omega) (by norm_num)
  rw [htm] at h
  set dd := 1 + ((dow - fd + 7) % 7 + (occ - 1) * 7) with hdd
  have hddr : 1 ≤ dd ∧ dd ≤ 35 := by
    have h7 : 0 ≤ (dow - fd + 7) % 7 ∧ (dow - fd + 7) % 7 < 7 := by omega
    omega
  rw [mkDate_eq_rollDay y m dd hm1 hm2,
    rollDay_small y m dd hm1 hm2 hddr.1 hddr.2] at h
  have hb := daysInMonth_bounds y m
  by_cases hov : daysInMonth y m < dd
  · rw [if_pos hov] at h
    by_cases h12 : m = 12
    · subst h12
      rw [if_pos rfl] at h
      have hguard : ((⟨y + 1, 1, dd - 31⟩ : CivilDate).month - 1 ≠ 12 - 1) := by
        show (1 : Int) - 1 ≠ 12 - 1
        norm_num
      rw [if_pos hguard] at h
      exact absurd h (by simp)
    · rw [if_neg h12] at h
      have hguard : ((⟨y, m + 1, dd - daysInMonth y m⟩ : CivilDate).month - 1 ≠ m - 1) := by
        show m + 1 - 1 ≠ m - 1
        omega
      rw [if_pos hguard] at h
      exact absurd h (by simp)
  · rw [if_neg hov] at h
    have hguard : ¬((⟨y, m, dd⟩ : CivilDate).month - 1 ≠ m - 1) := by
      show ¬(m - 1 ≠ m - 1)
      omega
    rw [if_neg hguard, Option.some_inj] at h
    rw [← h]

/-- With the rule fields in the spec's declared ranges and a query year
below the far-future sentinel, the relative-weekday next occurrence is
strictly after the query date. -/
theorem relativeNext_after (e : RelativeDateEntry) (f : CivilDate)
    (hocc1 : 1 ≤ e.occurrence) (hocc2 : e.occurrence ≤ 5)
    (hdow1 : 0 ≤ e.dayOfWeek) (hdow2 : e.dayOfWeek ≤ 6)
    (hm1 : 1 ≤ e.month) (hm2 : e.month ≤ 12) (hy : f.year < 9999) :
    f < e.getNextOccurrence f := by
  have hsent : mkDate 9999 11 31 = ⟨9999, 12, 31⟩ := by decide
  have hsentlt : f < mkDate 9999 11 31 := by
    rw [hsent]
    exact CivilDate.lt_of_year_lt hy
  have hretry : ∀ r : CivilDate,
      getNthWeekdayOfMonth (f.year + 1) e.month e.dayOfWeek e.occurrence = some r →
      f < r := fun r hr =>
    CivilDate.lt_of_year_lt (by
      rw [getNth_year (f.year + 1) e.month e.dayOfWeek e.occurrence hm1 hm2
        hdow1 hdow2 hocc1 hocc2 r hr]
      omega)
  cases hfirst : getNthWeekdayOfMonth f.year e.month e.dayOfWeek e.occurrence with
  | none =>
    cases hsecond : getNthWeekdayOfMonth (f.year + 1) e.month e.dayOfWeek e.occurrence with
    | none =>
      have hval : e.getNextOccurrence f = mkDate 9999 11 31 := by
        simp only [RelativeDateEntry.getNextOccurrence, hfirst, hsecond]
      rw [hval]
      exact hsentlt
    | some r =>
      have hval : e.getNextOccurrence f = r := by
        simp only [RelativeDateEntry.getNextOccurrence, hfirst, hsecond]
      rw [hval]
      exact hretry r hsecond
  | some dt =>
    by_cases hle : dt ≤ f
    · cases hsecond : getNthWeekdayOfMonth (f.year + 1) e.month e.dayOfWeek e.occurrence with
      | none =>
        have hval : e.getNextOccurrence f = mkDate 9999 11 31 := by
          simp only [RelativeDateEntry.getNextOccurrence, hfirst, hsecond, if_pos hle]
        rw [hval]
        exact hsentlt
      | some r =>
        have hval : e.getNextOccurrence f = r := by
          simp only [RelativeDateEntry.getNextOccurrence, hfirst, hsecond, if_pos hle]
        rw [hval]
        exact hretry r hsecond
    · have hval : e.getNextOccurrence f = dt := by
        simp only [RelativeDateEntry.getNextOccurrence, hfirst, if_neg hle]
      rw [hval]
      exact CivilDate.lt_of_not_le hle

/-- The field ranges the specification declares for each variant
(data model, spec section 3). -/
def Entry.InRange : Entry → Prop
  | .exact e => 1 ≤ e.month ∧ e.month ≤ 12 ∧ 1 ≤ e.day ∧ e.day ≤ 31
  | .exactYear e => 1 ≤ e.month ∧ e.month ≤ 12 ∧ 1 ≤ e.day ∧ e.day ≤ 31
  | .relative e => 1 ≤ e.occurrence ∧ e.occurrence ≤ 5 ∧
      0 ≤ e.dayOfWeek ∧ e.dayOfWeek ≤ 6 ∧ 1 ≤ e.month ∧ e.month ≤ 12

instance : DecidablePred Entry.InRange := fun e =>
  match e with
  | .exact x =>
    decidable_of_iff (1 ≤ x.month ∧ x.month ≤ 12 ∧ 1 ≤ x.day ∧ x.day ≤ 31) Iff.rfl
  | .exactYear x =>
    decidable_of_iff (1 ≤ x.month ∧ x.month ≤ 12 ∧ 1 ≤ x.day ∧ x.day ≤ 31) Iff.rfl
  | .relative x =>
    decidable_of_iff (1 ≤ x.occurrence ∧ x.occurrence ≤ 5 ∧
      0 ≤ x.dayOfWeek ∧ x.dayOfWeek ≤ 6 ∧ 1 ≤ x.month ∧ x.month ≤ 12) Iff.rfl

/-- Strictness of the next occurrence, uniformly over the three variants. -/
theorem entryNext_after (e : Entry) (f : CivilDate) (hr : e.InRange)
    (hy : f.year < 9999) : f < e.getNextOccurrence f := by
  cases e with
  | exact x =>
    obtain ⟨h1, h2, h3, h4⟩ := hr
    exact exactNext_after x f h1 h2 h3 h4
  | exactYear x =>
    obtain ⟨h1, h2, h3, h4⟩ := hr
    exact exactYearNext_after x f h1 h2 h3 h4
  | relative x =>
    obtain ⟨h1, h2, h3, h4, h5, h6⟩ := hr
    exact relativeNext_after x f h1 h2 h3 h4 h5 h6 hy

/-- Adding zero days to a valid date is the identity. -/
theorem addDays_zero (f : CivilDate) (hv : f.Valid) : addDays f 0 = f := by
  obtain ⟨h1, h2, h3, h4⟩ := hv
  unfold addDays
  rw [mkDate_eq_rollDay f.year f.month (f.day + 0) h1 h2]
  rw [show f.day + 0 = f.day by omega]
  rw [rollDay_base f.year f.month f.day h3 h4]

/-- The comparator used to model the sort is transitive. -/
theorem dateLeB_trans (a b c : Entry × CivilDate) (hab : dateLeB a b)
    (hbc : dateLeB b c) : dateLeB a c := by
  simp only [dateLeB, decide_eq_true_eq, CivilDate.le_def] at hab hbc ⊢
  omega

/-- The comparator used to model the sort is total. -/
theorem dateLeB_total (a b : Entry × CivilDate) : dateLeB a b || dateLeB b a := by
  simp only [dateLeB, Bool.or_eq_true, decide_eq_true_eq, CivilDate.le_def]
  omega

/-- Spec-side predicate for the `entriesOnMonthDay` query: a fixed-date
variant whose raw `month`/`day` fields equal the arguments. -/
def isFixedWithMonthDay (month day : Int) : Entry → Prop
  | .exact e => e.month = month ∧ e.day = day
  | .exactYear e => e.month = month ∧ e.day = day
  | .relative _ => False

/-! ### The claims -/

/-- C1, counterexample: claim C1 states that for every FixedAnnual entry
(any month/day the constructor accepts) and every date `d`,
`occursOn (getNextOccurrence d)` is true.  The entry `(month 2, day 29)`
refutes it: from 2025-01-01 (a non-leap year) `getNextOccurrence` silently
normalizes Feb 29 to 2025-03-01, on which the entry does not occur. -/
theorem claim1_counterexample :
    ExactDateEntry.occursOn ⟨"X", 2, 29, none⟩
      (ExactDateEntry.getNextOccurrence ⟨"X", 2, 29, none⟩ ⟨2025, 1, 1⟩) = false := by
  decide

/-- C1, amended: for every FixedAnnual entry whose month is in `[1, 12]`
and whose day is a valid day of that month in every year (so at most 28
for February), and every date `d`, `occursOn (getNextOccurrence d)` is
true. -/
theorem claim1_amended (e : ExactDateEntry) (f : CivilDate)
    (hm1 : 1 ≤ e.month) (hm2 : e.month ≤ 12) (hd1 : 1 ≤ e.day)
    (hd2 : ∀ y : Int, e.day ≤ daysInMonth y e.month) :
    e.occursOn (e.getNextOccurrence f) = true := by
  simp only [ExactDateEntry.getNextOccurrence]
  rw [mkDate_eq_rollDay f.year e.month e.day hm1 hm2,
    mkDate_eq_rollDay (f.year + 1) e.month e.day hm1 hm2,
    rollDay_base f.year e.month e.day hd1 (hd2 f.year),
    rollDay_base (f.year + 1) e.month e.day hd1 (hd2 (f.year + 1))]
  by_cases hle : (⟨f.year, e.month, e.day⟩ : CivilDate) ≤ f
  · rw [if_pos hle]
    simp [ExactDateEntry.occursOn]
  · rw [if_neg hle]
    simp [ExactDateEntry.occursOn]

/-- C1, witness for the amended claim at the entry `(1, 1)` and date
2026-05-05. -/
theorem claim1_amended_witness :
    ExactDateEntry.occursOn ⟨"New Year", 1, 1, none⟩
      (ExactDateEntry.getNextOccurrence ⟨"New Year", 1, 1, none⟩ ⟨2026, 5, 5⟩) = true :=
  claim1_amended ⟨"New Year", 1, 1, none⟩ ⟨2026, 5, 5⟩ (by decide) (by decide)
    (by decide) (fun y => by norm_num [daysInMonth])

/-- C2, counterexample: claim C2 states that a date token side with
trailing non-digit characters, such as `"1a/2"`, fails to parse.  In fact
`parseInt("1a", 10)` is `1`, so the line parses to the FixedAnnual entry
`(1, 2)`. -/
theorem claim2_counterexample :
    parseCSVLine "X,1a/2" none = some (.exact ⟨"X", 1, 2, none⟩) := by
  decide

/-- C2, amended: for every line whose date token contains `/`, parsing
yields no entry when either side of the token has no valid leading
integer (the `parseInt` model returns `NaN`/`none`); a side with a valid
leading integer followed by junk is accepted. -/
theorem claim2_amended (line : String) (src : Option String)
    (hslash : (trimJS ((splitOnChar ',' line.data).getD 1 [])).contains '/' = true)
    (hbad :
      parseIntJS ((splitOnChar '/'
        (trimJS ((splitOnChar ',' line.data).getD 1 []))).getD 0 []) = none ∨
      parseIntJS ((splitOnChar '/'
        (trimJS ((splitOnChar ',' line.data).getD 1 []))).getD 1 []) = none) :
    parseCSVLine line src = none := by
  simp only [parseCSVLine, parseLine]
  set parts := splitOnChar ',' line.data with hpartsdef
  set nm := trimJS (parts.getD 0 []) with hnmdef
  set ds := trimJS (parts.getD 1 []) with hdsdef
  set sides := splitOnChar '/' ds with hsidesdef
  set ms := sides.getD 0 [] with hmsdef
  set dys := sides.getD 1 [] with hdysdef
  by_cases hlen : parts.length < 2
  · rw [if_pos hlen]
  · rw [if_neg hlen]
    by_cases hempty : (nm.isEmpty || ds.isEmpty) = true
    · rw [if_pos hempty]
    · rw [if_neg hempty, if_pos hslash]
      by_cases hside : (ms.isEmpty || dys.isEmpty) = true
      · rw [if_pos hside]
      · rw [if_neg hside]
        rcases hM : parseIntJS ms with _ | mo <;>
          rcases hD : parseIntJS dys with _ | dy
        · simp only [hM, hD]
        · simp only [hM, hD]
        · simp only [hM, hD]
        · exfalso
          rcases hbad with hb | hb
          · rw [hM] at hb
            exact Option.noConfusion hb
          · rw [hD] at hb
            exact Option.noConfusion hb

/-- C2, witness for the amended claim: `"X,a/2"` yields no entry. -/
theorem claim2_amended_witness : parseCSVLine "X,a/2" none = none :=
  claim2_amended "X,a/2" none (by decide) (Or.inl (by decide))

/-- C3: for the RelativeWeekday rule (occurrence 3, Monday, January),
`getNextOccurrence` from 2026-01-01 is 2026-01-19, the 3rd Monday of
January 2026. -/
theorem claim3_third_monday_jan_2026 :
    RelativeDateEntry.getNextOccurrence ⟨"MLK", 3, 1, 1, none⟩ ⟨2026, 1, 1⟩ =
      ⟨2026, 1, 19⟩ := by
  decide

/-- C4: for every entry list, every `days ≥ 0` and every `fromDate`, the
output of `getEntriesInNextDays` is sorted ascending by date and every
returned date lies in the inclusive window from `fromDate` to
`fromDate + days` days. -/
theorem claim4_window_sorted (entries : List Entry) (days : Int)
    (fromDate : CivilDate) (_hdays : 0 ≤ days) :
    (getEntriesInNextDays entries days fromDate).Pairwise
      (fun a b => a.2 ≤ b.2) ∧
    ∀ p ∈ getEntriesInNextDays entries days fromDate,
      fromDate ≤ p.2 ∧ p.2 ≤ addDays fromDate days := by
  constructor
  · have hs := List.sorted_mergeSort dateLeB_trans dateLeB_total
      ((entries.map (fun e => (e, e.getNextOccurrence fromDate))).filter
        (fun p => decide (fromDate ≤ p.2) && decide (p.2 ≤ addDays fromDate days)))
    simp only [getEntriesInNextDays]
    exact hs.imp (fun h => of_decide_eq_true h)
  · intro p hp
    simp only [getEntriesInNextDays, List.mem_mergeSort, List.mem_filter,
      Bool.and_eq_true, decide_eq_true_eq] at hp
    exact hp.2

/-- C4, witness at a two-entry list, a 40-day window and 2026-01-01. -/
theorem claim4_window_sorted_witness :
    (getEntriesInNextDays
        [.exact ⟨"a", 1, 20, none⟩, .relative ⟨"b", 3, 1, 1, none⟩] 40
        ⟨2026, 1, 1⟩).Pairwise (fun a b => a.2 ≤ b.2) ∧
    ∀ p ∈ getEntriesInNextDays
        [.exact ⟨"a", 1, 20, none⟩, .relative ⟨"b", 3, 1, 1, none⟩] 40
        ⟨2026, 1, 1⟩,
      (⟨2026, 1, 1⟩ : CivilDate) ≤ p.2 ∧ p.2 ≤ addDays ⟨2026, 1, 1⟩ 40 :=
  claim4_window_sorted [.exact ⟨"a", 1, 20, none⟩, .relative ⟨"b", 3, 1, 1, none⟩]
    40 ⟨2026, 1, 1⟩ (by decide)

/-- C5: for every FixedAnnual entry (fields in the spec's declared ranges,
month in `[1, 12]`, day in `[1, 31]`) and every date `d`,
`getNextOccurrence d` is strictly after `d`. -/
theorem claim5_fixed_annual_strict (e : ExactDateEntry) (fromDate : CivilDate)
    (hm1 : 1 ≤ e.month) (hm2 : e.month ≤ 12) (hd1 : 1 ≤ e.day) (hd2 : e.day ≤ 31) :
    fromDate < e.getNextOccurrence fromDate :=
  exactNext_after e fromDate hm1 hm2 hd1 hd2

/-- C5, witness at the entry `(3, 14)` queried from its own occurrence
date 2026-03-14 (the boundary case: the result must be 2027, strictly
later). -/
theorem claim5_fixed_annual_strict_witness :
    (⟨2026, 3, 14⟩ : CivilDate) <
      ExactDateEntry.getNextOccurrence ⟨"Pi Day", 3, 14, none⟩ ⟨2026, 3, 14⟩ :=
  claim5_fixed_annual_strict ⟨"Pi Day", 3, 14, none⟩ ⟨2026, 3, 14⟩ (by decide)
    (by decide) (by decide) (by decide)

/-- C6: the three advertised parser round-trips: `"3MondayJan"` gives the
relative rule `(3, Monday, January)`; `"01/01"` with no year gives
FixedAnnual `(1, 1)`; `"08/19"` with year `"1919"` gives FixedDated
`(8, 19, 1919)`. -/
theorem claim6_parse_round_trip :
    parseRelativeDate "3MondayJan".data = some (3, 1, 1) ∧
    parseCSVLine "New Year,01/01" none = some (.exact ⟨"New Year", 1, 1, none⟩) ∧
    parseCSVLine "Afghanistan,08/19,1919" none =
      some (.exactYear ⟨"Afghanistan", 8, 19, 1919, none⟩) :=
  ⟨by decide, by decide, by decide⟩

/-- C7: a FixedDated entry occurs on `q` iff `q` is exactly the stored
year, month and day; anniversaries in other years do not match. -/
theorem claim7_fixed_dated_occurs_iff (e : ExactDateWithYearEntry) (q : CivilDate) :
    e.occursOn q = true ↔ q.year = e.year ∧ q.month = e.month ∧ q.day = e.day := by
  simp only [ExactDateWithYearEntry.occursOn, Bool.and_eq_true, beq_iff_eq]
  omega

/-- C8: `getEntriesOnMonthDay` never returns a RelativeWeekday entry, and
returns exactly the FixedAnnual and FixedDated entries whose raw month and
day fields equal the arguments. -/
theorem claim8_month_day_filter (entries : List Entry) (month day : Int) :
    (∀ r : RelativeDateEntry,
      Entry.relative r ∉ getEntriesOnMonthDay entries month day) ∧
    (∀ e : Entry, e ∈ getEntriesOnMonthDay entries month day ↔
      e ∈ entries ∧ isFixedWithMonthDay month day e) := by
  have key : ∀ e : Entry, e ∈ getEntriesOnMonthDay entries month day ↔
      e ∈ entries ∧ isFixedWithMonthDay month day e := by
    intro e
    unfold getEntriesOnMonthDay
    rw [List.mem_filter]
    cases e with
    | exact x => simp [isFixedWithMonthDay]
    | exactYear x => simp [isFixedWithMonthDay]
    | relative x => simp [isFixedWithMonthDay]
  exact ⟨fun r hmem => ((key _).mp hmem).2, key⟩

/-- C9: for every entry of any variant (fields in the spec's declared
ranges) and every valid date before year 9999, the next occurrence is
strictly after the date; consequently a 0-day window query returns the
empty list. -/
theorem claim9_strict_and_empty_window (entries : List Entry) (f : CivilDate)
    (hv : f.Valid) (hy : f.year < 9999) (hr : ∀ e ∈ entries, e.InRange) :
    (∀ e ∈ entries, f < e.getNextOccurrence f) ∧
    getEntriesInNextDays entries 0 f = [] := by
  have hstrict : ∀ e ∈ entries, f < e.getNextOccurrence f := fun e he =>
    entryNext_after e f (hr e he) hy
  refine ⟨hstrict, ?_⟩
  simp only [getEntriesInNextDays]
  rw [addDays_zero f hv]
  have hfe : ((entries.map (fun e => (e, e.getNextOccurrence f))).filter
      (fun p => decide (f ≤ p.2) && decide (p.2 ≤ f))) = [] := by
    rw [List.filter_eq_nil_iff]
    intro a ha
    rw [List.mem_map] at ha
    obtain ⟨e, he, rfl⟩ := ha
    simp only [Bool.and_eq_true, decide_eq_true_eq, not_and]
    intro _ h2
    exact absurd h2 (CivilDate.not_le_of_lt (hstrict e he))
  rw [hfe, List.mergeSort_nil]

/-- C9, witness at a three-entry list (one of each variant) and
2026-01-01. -/
theorem claim9_strict_and_empty_window_witness :
    (∀ e ∈ ([.exact ⟨"a", 1, 1, none⟩, .exactYear ⟨"b", 8, 19, 1919, none⟩,
        .relative ⟨"c", 3, 1, 1, none⟩] : List Entry),
      (⟨2026, 1, 1⟩ : CivilDate) < e.getNextOccurrence ⟨2026, 1, 1⟩) ∧
    getEntriesInNextDays [.exact ⟨"a", 1, 1, none⟩,
      .exactYear ⟨"b", 8, 19, 1919, none⟩,
      .relative ⟨"c", 3, 1, 1, none⟩] 0 ⟨2026, 1, 1⟩ = [] :=
  claim9_strict_and_empty_window
    [.exact ⟨"a", 1, 1, none⟩, .exactYear ⟨"b", 8, 19, 1919, none⟩,
      .relative ⟨"c", 3, 1, 1, none⟩]
    ⟨2026, 1, 1⟩ (by decide) (by decide) (by decide)

/-- C10: the relative-date parser accepts a leading `0` as the occurrence,
outside the documented `1..5` range: `"0MondayJan"` parses to the rule
`(0, Monday, January)` rather than failing. -/
theorem claim10_occurrence_zero_accepted :
    parseRelativeDate "0MondayJan".data = some (0, 1, 1) ∧
    parseCSVLine "X,0MondayJan" none = some (.relative ⟨"X", 0, 1, 1, none⟩) :=
  ⟨by decide, by decide⟩

end Moho
